import Mathlib

/-!
Verification of the checkpoint/recovery protocol shared by the batch
processors of this repository (bulletproof_gemini_processor.py,
bulletproof_recovery.py, large_batch_processor.py, small_batch_processor.py).

Modelling conventions:
* Report ids `"Report_k"` are modelled by the natural number `k`; the
  `int(report_id.replace('Report_', ''))` parsing used throughout the code
  is the identity under this encoding.
* A row of the `Business_Context_Results` sheet is a `ResultRecord`; the
  payload columns produced by the external LLM are collapsed into one
  `content` field, which the protocol never inspects.
* Wall-clock timestamps, log output, rate-limiting sleeps and the summary
  sheet are not modelled: no claim depends on them.
* Python's in-place `list.sort(key=extract_number)` is a stable sort by
  key; `sortByKey` below is a stable insertion sort, which produces the
  same list as any stable sort by the same key.
* Exceptions raised inside a `try` block are modelled by an explicit
  failure-injection parameter naming the statement that raised.
-/

/-- One row of the durable result store (`Business_Context_Results` sheet).
`report_id` models the key `"Report_k"` as `k`; `content` stands for all
payload columns produced by the external processor. -/
structure ResultRecord where
  report_id : Nat
  content : Nat
  deriving DecidableEq, Repr

/-- One entry of `failed_reports`: key, error classification, report name,
exactly as the dictionaries appended by the processors. -/
structure FailureRecord where
  report_id : Nat
  error : String
  report_name : String
  deriving DecidableEq, Repr

/-- Content of the master file, as seen by a reader: either a parseable
list of result rows or an unparseable (corrupt) file. -/
inductive MasterContent where
  | ok (rows : List ResultRecord)
  | corrupt
  deriving DecidableEq, Repr

/-- Content of the lightweight state file (`BULLETPROOF_STATE.json`):
the processed-key set and the failed-report list.  `processed` is a
`Finset` because the Python source stores it as a `set`. -/
structure StateContent where
  processed : Finset Nat
  failed : List FailureRecord
  deriving DecidableEq

/-- The on-disk state touched by the bulletproof processor: the canonical
master file, its temp sibling, the state file and its temp sibling.
`none` means the file does not exist. -/
structure Disk where
  master : Option MasterContent
  masterTemp : Option (List ResultRecord)
  state : Option StateContent
  stateTemp : Option StateContent
  deriving DecidableEq

/-- Stable insertion of a record into a list already sorted by key: the new
record goes before the first strictly greater key and after equal keys seen
earlier, matching Python's stable `list.sort`. -/
def insertByKey (r : ResultRecord) : List ResultRecord → List ResultRecord
  | [] => [r]
  | x :: xs => if r.report_id ≤ x.report_id then r :: x :: xs else x :: insertByKey r xs

/-- Model of `self.all_results.sort(key=extract_number)`: stable sort by
report number (`extract_number` is the identity under the `Nat` encoding
of ids). -/
def sortByKey : List ResultRecord → List ResultRecord
  | [] => []
  | x :: xs => insertByKey x (sortByKey xs)

/-- Failure injection for `BulletproofProcessor.save_all_progress`: which
statement of the `try` block (if any) raises. `duringWrite` covers any
exception before the master rename (reading the catalog, writing the temp
workbook); `atRename` an exception raised by the rename call itself. -/
inductive FailPoint where
  | none
  | duringWrite
  | atRename
  | duringStateWrite
  | atStateRename
  deriving DecidableEq, Repr

/-- Model of `BulletproofProcessor.save_all_progress`
(bulletproof_gemini_processor.py 149-221): early return on an empty
buffer; otherwise sort the buffer, write the workbook to a temp file,
atomically rename it onto the master file, then write and rename the
state file; on any exception, remove both temp files and leave everything
else as it was when the exception was raised. -/
def save_all_progress (d : Disk) (all_results : List ResultRecord)
    (processed : Finset Nat) (failed : List FailureRecord) (fp : FailPoint) : Disk :=
  if all_results.isEmpty then d
  else
    let sorted := sortByKey all_results
    let st : StateContent := ⟨processed, failed⟩
    match fp with
    | .none =>
        { master := some (.ok sorted), masterTemp := none,
          state := some st, stateTemp := none }
    | .duringWrite =>
        { d with masterTemp := none, stateTemp := none }
    | .atRename =>
        { d with masterTemp := none, stateTemp := none }
    | .duringStateWrite =>
        { master := some (.ok sorted), masterTemp := none,
          state := d.state, stateTemp := none }
    | .atStateRename =>
        { master := some (.ok sorted), masterTemp := none,
          state := d.state, stateTemp := none }

/-- Failure injection for `BulletproofRecovery.save_master_results`: its
`try` block only writes the temp workbook and renames it. -/
inductive RFail where
  | none
  | duringWrite
  | atRename
  deriving DecidableEq, Repr

/-- The recovery script's master-results file and its temp sibling
(`MASTER_RESULTS.xlsx`, `MASTER_RESULTS.xlsx.tmp`). -/
structure RecDisk where
  master : Option MasterContent
  masterTemp : Option (List ResultRecord)
  deriving DecidableEq

/-- Model of `BulletproofRecovery.save_master_results`
(bulletproof_recovery.py 146-208): early return on an empty buffer;
otherwise sort, write the temp workbook, atomically rename onto the
canonical file; on exception remove the temp file and leave the canonical
file untouched. -/
def save_master_results (d : RecDisk) (all_results : List ResultRecord)
    (fp : RFail) : RecDisk :=
  if all_results.isEmpty then d
  else
    match fp with
    | .none => { master := some (.ok (sortByKey all_results)), masterTemp := none }
    | .duringWrite => { d with masterTemp := none }
    | .atRename => { d with masterTemp := none }

/-- Keys of a row list. -/
def rowKeys (rows : List ResultRecord) : List Nat :=
  rows.map (fun r => r.report_id)

/-- Outcome of attempting one report inside the per-item loop, covering the
four paths of the source: success, essential data missing (skip before the
API call), API call returned nothing (failure or content blocked), or an
unexpected exception caught by the per-item handler. -/
inductive Outcome where
  | success (content : Nat)
  | missingData (report_name : String)
  | apiFailed (report_name : String)
  | exn (msg : String)
  deriving DecidableEq, Repr

/-- The completed-key set reconstructed from the rows of the master file:
`self.processed_reports.add(report_id)` row by row. -/
def processedOf (rows : List ResultRecord) : Finset Nat :=
  rows.foldl (fun s r => insert r.report_id s) ∅

/-- Model of `BulletproofProcessor.load_existing_work`
(bulletproof_gemini_processor.py 65-94): if the master file exists and
parses, every row feeds both the processed-key set and the in-memory
buffer; a parse failure is caught and only warned about; the state file
contributes the failed-report list.  Returns (processed keys, result
buffer, failed reports). -/
def load_existing_work (d : Disk) : Finset Nat × List ResultRecord × List FailureRecord :=
  let loaded : Finset Nat × List ResultRecord :=
    match d.master with
    | some (.ok rows) => (processedOf rows, rows)
    | some .corrupt => (∅, [])
    | none => (∅, [])
  let failed : List FailureRecord :=
    match d.state with
    | some st => st.failed
    | none => []
  (loaded.1, loaded.2, failed)

/-- Model of `BulletproofProcessor.identify_missing_reports` (96-125): the
sorted set difference `sorted(set(range(1, total+1)) - processed_numbers)`.
The id-string parsing is the identity under the `Nat` encoding of ids. -/
def identify_missing_reports (total : Nat) (processed_numbers : Finset Nat) : List Nat :=
  Finset.sort (· ≤ ·) (Finset.Icc 1 total \ processed_numbers)

/-- In-memory state of one `process_missing_reports` run: the disk, the
result buffer, the processed-key set, the failed list, the loop index `i`,
a count of external API calls issued, and whether the process has exited
(via the interrupt handler). -/
structure ProcState where
  disk : Disk
  all_results : List ResultRecord
  processed : Finset Nat
  failed : List FailureRecord
  idx : Nat
  calls : Nat
  halted : Bool
  deriving DecidableEq

/-- The FailureRecord appended for a given outcome, with the error
classifications used verbatim by bulletproof_gemini_processor.py. -/
def failureOf (oc : Nat → Outcome) (k : Nat) : Option FailureRecord :=
  match oc k with
  | .success _ => none
  | .missingData name => some ⟨k, "Missing essential data", name⟩
  | .apiFailed name => some ⟨k, "API call failed", name⟩
  | .exn msg => some ⟨k, "Unexpected error: " ++ msg, "Unknown"⟩

/-- The ResultRecord appended for a given outcome. -/
def successOf (oc : Nat → Outcome) (k : Nat) : Option ResultRecord :=
  match oc k with
  | .success c => some ⟨k, c⟩
  | _ => none

/-- One iteration of the `for i, report_num in enumerate(missing_numbers)`
body (bulletproof_gemini_processor.py 247-325).  On success the result is
appended and the key marked processed; on failure a FailureRecord is
appended.  The periodic save `(i + 1) % save_frequency == 0` is reached
only on the success and API-failure paths: the missing-data branch and the
exception handler both `continue` past it. -/
def stepItem (freq : Nat) (oc : Nat → Outcome) (st : ProcState) (k : Nat) : ProcState :=
  match oc k with
  | .success c =>
      let st1 : ProcState :=
        { st with all_results := st.all_results ++ [⟨k, c⟩],
                  processed := insert k st.processed, calls := st.calls + 1 }
      let st2 : ProcState :=
        if (st.idx + 1) % freq = 0 then
          { st1 with disk := save_all_progress st1.disk st1.all_results st1.processed st1.failed .none }
        else st1
      { st2 with idx := st.idx + 1 }
  | .missingData name =>
      { st with failed := st.failed ++ [⟨k, "Missing essential data", name⟩],
                idx := st.idx + 1 }
  | .apiFailed name =>
      let st1 : ProcState :=
        { st with failed := st.failed ++ [⟨k, "API call failed", name⟩],
                  calls := st.calls + 1 }
      let st2 : ProcState :=
        if (st.idx + 1) % freq = 0 then
          { st1 with disk := save_all_progress st1.disk st1.all_results st1.processed st1.failed .none }
        else st1
      { st2 with idx := st.idx + 1 }
  | .exn msg =>
      { st with failed := st.failed ++ [⟨k, "Unexpected error: " ++ msg, "Unknown"⟩],
                idx := st.idx + 1 }

/-- Model of `BulletproofProcessor.handle_interrupt` (56-63): save
everything via `save_all_progress`, then `sys.exit(0)`. -/
def interruptFlush (st : ProcState) : ProcState :=
  { st with disk := save_all_progress st.disk st.all_results st.processed st.failed .none,
            halted := true }

/-- The per-item loop.  `intAt = some j` models a SIGINT delivered at the
boundary before the iteration with index `j`: the signal handler saves all
progress and exits the process. -/
def processLoop (freq : Nat) (oc : Nat → Outcome) (intAt : Option Nat) :
    ProcState → List Nat → ProcState
  | st, [] => st
  | st, k :: rest =>
      if st.halted then st
      else if intAt = some st.idx then interruptFlush st
      else processLoop freq oc intAt (stepItem freq oc st k) rest

/-- Model of `BulletproofProcessor.process_missing_reports` (223-331):
early return (without saving) when nothing is missing; otherwise run the
loop and do a final `save_all_progress` — unless the interrupt handler
already saved and exited the process. -/
def process_missing_reports (freq : Nat) (oc : Nat → Outcome) (intAt : Option Nat)
    (st : ProcState) (missing : List Nat) : ProcState :=
  if missing.isEmpty then st
  else if (processLoop freq oc intAt st missing).halted then
    processLoop freq oc intAt st missing
  else
    { processLoop freq oc intAt st missing with
        disk := save_all_progress (processLoop freq oc intAt st missing).disk
          (processLoop freq oc intAt st missing).all_results
          (processLoop freq oc intAt st missing).processed
          (processLoop freq oc intAt st missing).failed .none }

/-- The executor state at the start of a run, seeded by `load_existing_work`. -/
def initState (d : Disk) : ProcState :=
  let l := load_existing_work d
  ⟨d, l.2.1, l.1, l.2.2, 0, 0, false⟩

/-- Model of `main` of bulletproof_gemini_processor.py (333-373): load
existing work, identify the gaps; if nothing is missing just
`save_all_progress` and return, else run `process_missing_reports` over
the missing list. -/
def runPipeline (total freq : Nat) (oc : Nat → Outcome) (intAt : Option Nat)
    (d : Disk) : ProcState :=
  if (identify_missing_reports total (initState d).processed).isEmpty then
    { initState d with
        disk := save_all_progress (initState d).disk (initState d).all_results
          (initState d).processed (initState d).failed .none }
  else
    process_missing_reports freq oc intAt (initState d)
      (identify_missing_reports total (initState d).processed)

/-- A token of the range-compression string: a standalone number or an
inclusive span rendered as "a-b". -/
inductive RangeToken where
  | single (n : Int)
  | span (a b : Int)
  deriving DecidableEq, Repr

/-- Rendering of one token, as formatted by `_format_ranges`. -/
def RangeToken.render : RangeToken → String
  | .single n => toString n
  | .span a b => toString a ++ "-" ++ toString b

/-- The emitted token: `ranges.append(str(start))` for a one-element range,
otherwise the span string. -/
def mkToken (a b : Int) : RangeToken :=
  if a = b then .single a else .span a b

/-- The loop of `_format_ranges` (bulletproof_gemini_processor.py 127-147);
`a`/`b` are the Python `start`/`end` variables, the list argument is the
remaining part of `numbers[1:]`, and reaching `[]` plays the role of the
appended `None` sentinel that closes the last range. -/
def formatRangesAux (a b : Int) : List Int → List RangeToken
  | [] => [mkToken a b]
  | n :: rest =>
      if n ≠ b + 1 then mkToken a b :: formatRangesAux n n rest
      else formatRangesAux a n rest

/-- The token list produced by `_format_ranges` (empty input gives no
tokens). -/
def format_ranges_tokens : List Int → List RangeToken
  | [] => []
  | h :: t => formatRangesAux h h t

/-- Model of `BulletproofProcessor._format_ranges` and
`BulletproofRecovery._format_ranges`: the final string, `"None"` for an
empty list, otherwise the comma-joined rendering of the tokens. -/
def format_ranges (numbers : List Int) : String :=
  match numbers with
  | [] => "None"
  | h :: t => String.intercalate ", " ((formatRangesAux h h t).map RangeToken.render)

/-- The inclusive integer interval `[a..b]` (empty when `b < a`). -/
def intRange (a b : Int) : List Int :=
  (List.range (b + 1 - a).toNat).map (fun i : Nat => a + (i : Int))

/-- Expansion of one token back into the numbers it denotes. -/
def expandToken : RangeToken → List Int
  | .single n => [n]
  | .span a b => intRange a b

/-- Expansion of a token list. -/
def expandTokens (ts : List RangeToken) : List Int :=
  ts.foldr (fun t acc => expandToken t ++ acc) []

/-- Number of external API calls issued for a given item: the success and
API-failure paths call `call_gemini_api` once; the missing-data skip and
the exception path (raised while extracting the row) do not. -/
def callsOf (oc : Nat → Outcome) (k : Nat) : Nat :=
  match oc k with
  | .success _ => 1
  | .apiFailed _ => 1
  | _ => 0

/-- The canonical store, whenever present and parseable, has pairwise
distinct report keys. -/
def MasterGood (d : Disk) : Prop :=
  ∀ rows, d.master = some (.ok rows) → (rowKeys rows).Nodup

/-- Executor-state invariant: the buffer has pairwise distinct keys, every
buffered key is in the processed set, and the store on disk is duplicate
free. -/
def GoodState (st : ProcState) : Prop :=
  (rowKeys st.all_results).Nodup
    ∧ (∀ r ∈ st.all_results, r.report_id ∈ st.processed)
    ∧ MasterGood st.disk

/-- A failed-report entry of large_batch_processor.py, which records only
the key and the error text. -/
structure LBFailure where
  report_id : Nat
  error : String
  deriving DecidableEq, Repr

/-- On-disk state touched by the large-batch processor: the canonical
master file and state file (with temp siblings) plus the append-only
`EMERGENCY_BACKUPS` directory, modelled as the list of snapshots written
so far (each `emergency_save` writes fresh timestamped files and never
overwrites earlier ones). -/
structure LBDisk where
  master : Option MasterContent
  masterTemp : Option (List ResultRecord)
  state : Option StateContent
  stateTemp : Option StateContent
  backups : List (List ResultRecord)
  deriving DecidableEq

/-- Model of `LargeBatchProcessor.save_checkpoint`
(large_batch_processor.py 96-153), success path: write the full result
set to the temp workbook, atomically rename onto the master file, then
rewrite the state file (processed keys drawn from the rows, failed list
reset to empty). -/
def save_checkpoint (d : LBDisk) (all_results : List ResultRecord) : LBDisk :=
  { d with master := some (.ok all_results), masterTemp := none,
           state := some ⟨processedOf all_results, []⟩, stateTemp := none }

/-- Model of `LargeBatchProcessor.emergency_save` (59-94): append a
timestamped snapshot of the in-memory new results to the backup
directory; the canonical master file is not touched. -/
def emergency_save (d : LBDisk) (results_so_far : List ResultRecord) : LBDisk :=
  { d with backups := d.backups ++ [results_so_far] }

/-- In-memory state of one `process_large_batch` run. `new_results` holds
only this run's successes; the pre-existing rows are the `existing`
parameter of the step functions. -/
structure LBState where
  disk : LBDisk
  new_results : List ResultRecord
  failed : List LBFailure
  checkpoints : Nat
  idx : Nat
  calls : Nat
  halted : Bool
  deriving DecidableEq

/-- One iteration of the `for i, report_num in enumerate(batch_reports)`
body (large_batch_processor.py 227-297).  The checkpoint block
`len(new_results) > 0 and len(new_results) % checkpoint_frequency == 0`
is reached on the success and API-failure paths; the missing-data branch
continues past it and the exception handler does an emergency save. -/
def lbStep (freq : Nat) (oc : Nat → Outcome) (existing : List ResultRecord)
    (st : LBState) (k : Nat) : LBState :=
  match oc k with
  | .success c =>
      let st1 : LBState :=
        { st with new_results := st.new_results ++ [⟨k, c⟩], calls := st.calls + 1 }
      let st2 : LBState :=
        if 0 < st1.new_results.length ∧ st1.new_results.length % freq = 0 then
          { st1 with disk := save_checkpoint st1.disk (existing ++ st1.new_results),
                     checkpoints := st1.checkpoints + 1 }
        else st1
      { st2 with idx := st.idx + 1 }
  | .missingData _ =>
      { st with failed := st.failed ++ [⟨k, "Missing data"⟩], idx := st.idx + 1 }
  | .apiFailed _ =>
      let st1 : LBState :=
        { st with failed := st.failed ++ [⟨k, "API failed"⟩], calls := st.calls + 1 }
      let st2 : LBState :=
        if 0 < st1.new_results.length ∧ st1.new_results.length % freq = 0 then
          { st1 with disk := save_checkpoint st1.disk (existing ++ st1.new_results),
                     checkpoints := st1.checkpoints + 1 }
        else st1
      { st2 with idx := st.idx + 1 }
  | .exn msg =>
      { st with failed := st.failed ++ [⟨k, msg⟩],
                disk := emergency_save st.disk st.new_results,
                idx := st.idx + 1 }

/-- The large-batch per-item loop; `LargeBatchProcessor.handle_interrupt`
(53-58) only sets the flag, so a SIGINT during iteration `j - 1` is first
observed at the top of iteration `j`, where the loop does an
`emergency_save` of the new results and exits the process (227-233). -/
def lbLoop (freq : Nat) (oc : Nat → Outcome) (existing : List ResultRecord)
    (intAt : Option Nat) : LBState → List Nat → LBState
  | st, [] => st
  | st, k :: rest =>
      if st.halted then st
      else if intAt = some st.idx then
        { st with disk := emergency_save st.disk st.new_results, halted := true }
      else lbLoop freq oc existing intAt (lbStep freq oc existing st k) rest

/-- Model of `LargeBatchProcessor.process_large_batch` (186-327): run the
loop, then a final `save_checkpoint` of existing plus new results —
unless the interrupt path already exited the process. -/
def process_large_batch (freq : Nat) (oc : Nat → Outcome)
    (existing : List ResultRecord) (intAt : Option Nat)
    (st : LBState) (batch : List Nat) : LBState :=
  if (lbLoop freq oc existing intAt st batch).halted then
    lbLoop freq oc existing intAt st batch
  else
    { lbLoop freq oc existing intAt st batch with
        disk := save_checkpoint (lbLoop freq oc existing intAt st batch).disk
          (existing ++ (lbLoop freq oc existing intAt st batch).new_results),
        checkpoints := (lbLoop freq oc existing intAt st batch).checkpoints + 1 }

/-- The empty working directory: no master file, no state file, no temp
files. -/
def d0 : Disk := ⟨none, none, none, none⟩

/-- A populated working directory with one committed record and a stale
temp file, used to observe what a flush leaves untouched. -/
def d1 : Disk := ⟨some (.ok [⟨1, 7⟩]), some [⟨9, 9⟩], some ⟨∅, []⟩, none⟩

/-- Populated recovery-script directory. -/
def rd1 : RecDisk := ⟨some (.ok [⟨1, 7⟩]), some [⟨9, 9⟩]⟩

/-- A working directory whose master file exists but is unparseable. -/
def corruptDisk : Disk := ⟨some .corrupt, none, none, none⟩

/-- The executor state at the start of a first run in an empty directory. -/
def st0 : ProcState := ⟨d0, [], ∅, [], 0, 0, false⟩

/-- The per-item outcomes of the C3 failing run: the report at key 5 has
missing essential data, every other report succeeds. -/
def oc3 : Nat → Outcome := fun k => if k = 5 then Outcome.missingData "r" else Outcome.success 0

/-- The per-item outcomes of the C8 witness run: one success, one
missing-data failure, one API failure, one unexpected exception. -/
def oc8 : Nat → Outcome := fun k =>
  if k = 1 then Outcome.success 11
  else if k = 2 then Outcome.missingData "a"
  else if k = 3 then Outcome.apiFailed "b"
  else Outcome.exn "boom"

/-- The store rows of the C7 witness: catalog keys 1 and 2, both done. -/
def rows7 : List ResultRecord := [⟨1, 0⟩, ⟨2, 0⟩]

/-- A working directory whose master store already covers the catalog. -/
def d7 : Disk := ⟨some (.ok rows7), none, none, none⟩

/-- Empty large-batch working directory. -/
def lbd0 : LBDisk := ⟨none, none, none, none, []⟩

/-- Initial large-batch run state in an empty directory. -/
def lbst0 : LBState := ⟨lbd0, [], [], 0, 0, 0, false⟩

/-- All-success outcome function. -/
def ocS : Nat → Outcome := fun _ => Outcome.success 0

/-- A working directory whose master store exists and parses but holds no
rows yet. -/
def dEmptyStore : Disk := ⟨some (.ok []), none, none, none⟩

theorem insertByKey_perm (r : ResultRecord) (l : List ResultRecord) :
    (insertByKey r l).Perm (r :: l) := by
  induction l with
  | nil => simp [insertByKey]
  | cons x xs ih =>
      by_cases h : r.report_id ≤ x.report_id
      · simp [insertByKey, h]
      · simp only [insertByKey, if_neg h]
        exact ((ih.cons x).trans (List.Perm.swap r x xs))

theorem sortByKey_perm (l : List ResultRecord) : (sortByKey l).Perm l := by
  induction l with
  | nil => simp [sortByKey]
  | cons x xs ih =>
      exact (insertByKey_perm x (sortByKey xs)).trans (ih.cons x)

theorem sortByKey_length (l : List ResultRecord) : (sortByKey l).length = l.length :=
  (sortByKey_perm l).length_eq

theorem sortByKey_keys_nodup {l : List ResultRecord} (h : (rowKeys l).Nodup) :
    (rowKeys (sortByKey l)).Nodup := by
  have hp : (rowKeys (sortByKey l)).Perm (rowKeys l) :=
    (sortByKey_perm l).map (fun r : ResultRecord => r.report_id)
  exact hp.nodup_iff.mpr h

theorem stepItem_halted (freq : Nat) (oc : Nat → Outcome) (st : ProcState) (k : Nat) :
    (stepItem freq oc st k).halted = st.halted := by
  unfold stepItem
  cases oc k <;> simp <;> split <;> rfl

theorem stepItem_idx (freq : Nat) (oc : Nat → Outcome) (st : ProcState) (k : Nat) :
    (stepItem freq oc st k).idx = st.idx + 1 := by
  unfold stepItem
  cases oc k <;> simp <;> split <;> rfl

theorem stepItem_all_results (freq : Nat) (oc : Nat → Outcome) (st : ProcState) (k : Nat) :
    (stepItem freq oc st k).all_results = st.all_results ++ (successOf oc k).toList := by
  unfold stepItem successOf
  cases oc k <;> simp <;> split <;> rfl

theorem stepItem_failed (freq : Nat) (oc : Nat → Outcome) (st : ProcState) (k : Nat) :
    (stepItem freq oc st k).failed = st.failed ++ (failureOf oc k).toList := by
  unfold stepItem failureOf
  cases oc k <;> simp <;> split <;> rfl

theorem stepItem_calls (freq : Nat) (oc : Nat → Outcome) (st : ProcState) (k : Nat) :
    (stepItem freq oc st k).calls = st.calls + callsOf oc k := by
  unfold stepItem callsOf
  cases oc k <;> simp <;> split <;> rfl

theorem stepItem_processed_subset (freq : Nat) (oc : Nat → Outcome) (st : ProcState) (k : Nat) :
    (stepItem freq oc st k).processed ⊆ insert k st.processed := by
  unfold stepItem
  cases oc k with
  | success c =>
      simp only
      split <;> exact fun a ha => ha
  | missingData name => exact fun a ha => Finset.mem_insert_of_mem ha
  | apiFailed name =>
      simp only
      split <;> exact fun a ha => Finset.mem_insert_of_mem ha
  | exn msg => exact fun a ha => Finset.mem_insert_of_mem ha

theorem processLoop_none_halted (freq : Nat) (oc : Nat → Outcome) (q : List Nat)
    (st : ProcState) (h : st.halted = false) :
    (processLoop freq oc none st q).halted = false := by
  induction q generalizing st with
  | nil => simpa [processLoop] using h
  | cons k rest ih =>
      simp only [processLoop, h, if_false]
      simp only [reduceCtorEq, if_false]
      exact ih _ ((stepItem_halted freq oc st k).trans h)

theorem processLoop_none_all_results (freq : Nat) (oc : Nat → Outcome) (q : List Nat)
    (st : ProcState) (h : st.halted = false) :
    (processLoop freq oc none st q).all_results
      = st.all_results ++ q.filterMap (successOf oc) := by
  induction q generalizing st with
  | nil => simp [processLoop]
  | cons k rest ih =>
      simp only [processLoop, h, if_false, reduceCtorEq]
      rw [ih _ ((stepItem_halted freq oc st k).trans h), stepItem_all_results,
        List.filterMap_cons]
      cases successOf oc k <;> simp

theorem processLoop_none_failed (freq : Nat) (oc : Nat → Outcome) (q : List Nat)
    (st : ProcState) (h : st.halted = false) :
    (processLoop freq oc none st q).failed
      = st.failed ++ q.filterMap (failureOf oc) := by
  induction q generalizing st with
  | nil => simp [processLoop]
  | cons k rest ih =>
      simp only [processLoop, h, if_false, reduceCtorEq]
      rw [ih _ ((stepItem_halted freq oc st k).trans h), stepItem_failed,
        List.filterMap_cons]
      cases failureOf oc k <;> simp

theorem processLoop_none_calls (freq : Nat) (oc : Nat → Outcome) (q : List Nat)
    (st : ProcState) (h : st.halted = false) :
    (processLoop freq oc none st q).calls
      = st.calls + (q.map (callsOf oc)).sum := by
  induction q generalizing st with
  | nil => simp [processLoop]
  | cons k rest ih =>
      simp only [processLoop, h, if_false, reduceCtorEq]
      rw [ih _ ((stepItem_halted freq oc st k).trans h), stepItem_calls]
      simp [Nat.add_assoc]

theorem processLoop_none_idx (freq : Nat) (oc : Nat → Outcome) (q : List Nat)
    (st : ProcState) (h : st.halted = false) :
    (processLoop freq oc none st q).idx = st.idx + q.length := by
  induction q generalizing st with
  | nil => simp [processLoop]
  | cons k rest ih =>
      simp only [processLoop, h, if_false, reduceCtorEq]
      rw [ih _ ((stepItem_halted freq oc st k).trans h), stepItem_idx]
      simp [Nat.add_assoc, Nat.add_comm 1 rest.length]

theorem processLoop_interrupt (freq : Nat) (oc : Nat → Outcome) (q : List Nat)
    (st : ProcState) (j : Nat) (h : st.halted = false) (hj : j < q.length) :
    processLoop freq oc (some (st.idx + j)) st q
      = interruptFlush (processLoop freq oc none st (q.take j)) := by
  induction q generalizing st j with
  | nil => exact absurd hj (by simp)
  | cons k rest ih =>
      cases j with
      | zero =>
          simp [processLoop, h, interruptFlush]
      | succ j =>
          have hne : ¬ (some (st.idx + (j + 1)) = some st.idx) := by
            intro hc
            injection hc with hc
            omega
          have hstep : st.idx + (j + 1) = (stepItem freq oc st k).idx + j := by
            rw [stepItem_idx]; omega
          simp only [processLoop, h, if_false, hne, List.take_succ_cons, reduceCtorEq]
          rw [hstep]
          exact ih _ j ((stepItem_halted freq oc st k).trans h)
            (by simpa using Nat.lt_of_succ_lt_succ (Nat.succ_lt_succ_iff.mpr hj))

theorem save_all_progress_masterGood {d : Disk} {rs : List ResultRecord}
    (p : Finset Nat) (f : List FailureRecord) (fp : FailPoint)
    (hd : MasterGood d) (hrs : (rowKeys rs).Nodup) :
    MasterGood (save_all_progress d rs p f fp) := by
  unfold save_all_progress
  split
  · exact hd
  · cases fp <;>
      · intro rows hrows
        simp only at hrows
        first
        | (injection hrows with hrows
           cases hrows
           exact sortByKey_keys_nodup hrs)
        | exact hd rows hrows

theorem stepItem_good {freq : Nat} {oc : Nat → Outcome} {st : ProcState} {k : Nat}
    (hst : GoodState st) (hk : k ∉ st.processed) :
    GoodState (stepItem freq oc st k) := by
  obtain ⟨h1, h2, h3⟩ := hst
  unfold stepItem
  cases oc k with
  | success c =>
      have hknotin : k ∉ rowKeys st.all_results := by
        intro hin
        rcases List.mem_map.mp hin with ⟨r, hr, hrk⟩
        exact hk (hrk ▸ h2 r hr)
      have h1' : (rowKeys (st.all_results ++ [⟨k, c⟩])).Nodup := by
        simp only [rowKeys, List.map_append, List.map_cons, List.map_nil]
        simp only [List.nodup_append, List.nodup_cons, List.nodup_nil]
        exact ⟨h1, by simp, by simpa [rowKeys] using hknotin⟩
      have h2' : ∀ r ∈ st.all_results ++ [(⟨k, c⟩ : ResultRecord)],
          r.report_id ∈ insert k st.processed := by
        intro r hr
        rcases List.mem_append.mp hr with hr | hr
        · exact Finset.mem_insert_of_mem (h2 r hr)
        · simp only [List.mem_singleton] at hr
          subst hr
          exact Finset.mem_insert_self _ _
      simp only
      split
      · exact ⟨h1', h2', save_all_progress_masterGood _ _ _ h3 h1'⟩
      · exact ⟨h1', h2', h3⟩
  | missingData name => exact ⟨h1, h2, h3⟩
  | apiFailed name =>
      simp only
      split
      · exact ⟨h1, h2, save_all_progress_masterGood _ _ _ h3 h1⟩
      · exact ⟨h1, h2, h3⟩
  | exn msg => exact ⟨h1, h2, h3⟩

theorem interruptFlush_good {st : ProcState} (hst : GoodState st) :
    GoodState (interruptFlush st) := by
  obtain ⟨h1, h2, h3⟩ := hst
  exact ⟨h1, h2, save_all_progress_masterGood _ _ _ h3 h1⟩

theorem processLoop_good {freq : Nat} {oc : Nat → Outcome} {intAt : Option Nat}
    {q : List Nat} {st : ProcState}
    (hst : GoodState st) (hq : ∀ k ∈ q, k ∉ st.processed) (hnd : q.Nodup) :
    GoodState (processLoop freq oc intAt st q) := by
  induction q generalizing st with
  | nil => simpa [processLoop] using hst
  | cons k rest ih =>
      unfold processLoop
      split
      · exact hst
      · split
        · exact interruptFlush_good hst
        · have hk : k ∉ st.processed := hq k (by simp)
          refine ih (stepItem_good hst hk) ?_ (List.Nodup.of_cons hnd)
          intro j hj hmem
          have hj2 := stepItem_processed_subset freq oc st k hmem
          rcases Finset.mem_insert.mp hj2 with hj2 | hj2
          · exact (List.nodup_cons.mp hnd).1 (hj2 ▸ hj)
          · exact hq j (List.mem_cons_of_mem _ hj) hj2

theorem process_missing_reports_good {freq : Nat} {oc : Nat → Outcome}
    {intAt : Option Nat} {st : ProcState} {missing : List Nat}
    (hst : GoodState st) (hq : ∀ k ∈ missing, k ∉ st.processed) (hnd : missing.Nodup) :
    GoodState (process_missing_reports freq oc intAt st missing) := by
  unfold process_missing_reports
  split
  · exact hst
  · split
    · exact processLoop_good hst hq hnd
    · obtain ⟨h1, h2, h3⟩ := @processLoop_good freq oc intAt missing st hst hq hnd
      exact ⟨h1, h2, save_all_progress_masterGood _ _ _ h3 h1⟩

theorem processedOf_mem {rows : List ResultRecord} {k : Nat} :
    k ∈ processedOf rows ↔ ∃ r ∈ rows, r.report_id = k := by
  unfold processedOf
  suffices h : ∀ (s : Finset Nat),
      (k ∈ rows.foldl (fun s r => insert r.report_id s) s
        ↔ k ∈ s ∨ ∃ r ∈ rows, r.report_id = k) by
    simpa using h ∅
  induction rows with
  | nil => intro s; simp
  | cons r rest ih =>
      intro s
      rw [List.foldl_cons, ih]
      constructor
      · rintro (hs | hex)
        · rcases Finset.mem_insert.mp hs with h | h
          · exact Or.inr ⟨r, by simp, h.symm⟩
          · exact Or.inl h
        · rcases hex with ⟨r2, hr2, hk⟩
          exact Or.inr ⟨r2, List.mem_cons_of_mem _ hr2, hk⟩
      · rintro (hs | ⟨r2, hr2, hk⟩)
        · exact Or.inl (Finset.mem_insert_of_mem hs)
        · rcases List.mem_cons.mp hr2 with h | h
          · subst h; exact Or.inl (by simp [hk])
          · exact Or.inr ⟨r2, h, hk⟩

theorem mem_buffer_mem_processedOf {rows : List ResultRecord} :
    ∀ r ∈ rows, r.report_id ∈ processedOf rows :=
  fun r hr => processedOf_mem.mpr ⟨r, hr, rfl⟩

theorem identify_missing_nodup (total : Nat) (s : Finset Nat) :
    (identify_missing_reports total s).Nodup :=
  Finset.sort_nodup _ _

theorem identify_missing_mem {total : Nat} {s : Finset Nat} {k : Nat} :
    k ∈ identify_missing_reports total s ↔ k ∈ Finset.Icc 1 total ∧ k ∉ s := by
  unfold identify_missing_reports
  rw [Finset.mem_sort, Finset.mem_sdiff]

theorem lbStep_halted (freq : Nat) (oc : Nat → Outcome) (existing : List ResultRecord)
    (st : LBState) (k : Nat) : (lbStep freq oc existing st k).halted = st.halted := by
  unfold lbStep
  cases oc k <;> simp <;> split <;> rfl

theorem lbStep_idx (freq : Nat) (oc : Nat → Outcome) (existing : List ResultRecord)
    (st : LBState) (k : Nat) : (lbStep freq oc existing st k).idx = st.idx + 1 := by
  unfold lbStep
  cases oc k <;> simp <;> split <;> rfl

theorem lbLoop_interrupt (freq : Nat) (oc : Nat → Outcome)
    (existing : List ResultRecord) (q : List Nat) (st : LBState) (j : Nat)
    (h : st.halted = false) (hj : j < q.length) :
    lbLoop freq oc existing (some (st.idx + j)) st q
      = (let st2 := lbLoop freq oc existing none st (q.take j)
         { st2 with disk := emergency_save st2.disk st2.new_results, halted := true }) := by
  induction q generalizing st j with
  | nil => exact absurd hj (by simp)
  | cons k rest ih =>
      cases j with
      | zero => simp [lbLoop, h]
      | succ j =>
          have hne : ¬ (some (st.idx + (j + 1)) = some st.idx) := by
            intro hc
            injection hc with hc
            omega
          have hstep : st.idx + (j + 1) = (lbStep freq oc existing st k).idx + j := by
            rw [lbStep_idx]; omega
          simp only [lbLoop, h, if_false, hne, List.take_succ_cons, reduceCtorEq]
          rw [hstep]
          exact ih _ j ((lbStep_halted freq oc existing st k).trans h)
            (by simpa using Nat.lt_of_succ_lt_succ (Nat.succ_lt_succ_iff.mpr hj))

theorem lbStep_new_results (freq : Nat) (oc : Nat → Outcome)
    (existing : List ResultRecord) (st : LBState) (k : Nat) :
    (lbStep freq oc existing st k).new_results
      = st.new_results ++ (successOf oc k).toList := by
  unfold lbStep successOf
  cases oc k <;> simp <;> split <;> rfl

theorem lbStep_calls (freq : Nat) (oc : Nat → Outcome)
    (existing : List ResultRecord) (st : LBState) (k : Nat) :
    (lbStep freq oc existing st k).calls = st.calls + callsOf oc k := by
  unfold lbStep callsOf
  cases oc k <;> simp <;> split <;> rfl

theorem lbLoop_none_halted (freq : Nat) (oc : Nat → Outcome)
    (existing : List ResultRecord) (q : List Nat) (st : LBState)
    (h : st.halted = false) :
    (lbLoop freq oc existing none st q).halted = false := by
  induction q generalizing st with
  | nil => simpa [lbLoop] using h
  | cons k rest ih =>
      simp only [lbLoop, h, if_false, reduceCtorEq]
      exact ih _ ((lbStep_halted freq oc existing st k).trans h)

theorem lbLoop_none_new_results (freq : Nat) (oc : Nat → Outcome)
    (existing : List ResultRecord) (q : List Nat) (st : LBState)
    (h : st.halted = false) :
    (lbLoop freq oc existing none st q).new_results
      = st.new_results ++ q.filterMap (successOf oc) := by
  induction q generalizing st with
  | nil => simp [lbLoop]
  | cons k rest ih =>
      simp only [lbLoop, h, if_false, reduceCtorEq]
      rw [ih _ ((lbStep_halted freq oc existing st k).trans h), lbStep_new_results,
        List.filterMap_cons]
      cases successOf oc k <;> simp

theorem lbLoop_none_calls (freq : Nat) (oc : Nat → Outcome)
    (existing : List ResultRecord) (q : List Nat) (st : LBState)
    (h : st.halted = false) :
    (lbLoop freq oc existing none st q).calls
      = st.calls + (q.map (callsOf oc)).sum := by
  induction q generalizing st with
  | nil => simp [lbLoop]
  | cons k rest ih =>
      simp only [lbLoop, h, if_false, reduceCtorEq]
      rw [ih _ ((lbStep_halted freq oc existing st k).trans h), lbStep_calls]
      simp [Nat.add_assoc]

theorem lbStep_disk_success {freq : Nat} {oc : Nat → Outcome}
    {existing : List ResultRecord} {st : LBState} {k : Nat} {c : Nat}
    (hoc : oc k = .success c)
    (hmod : (st.new_results.length + 1) % freq ≠ 0) :
    (lbStep freq oc existing st k).disk = st.disk := by
  unfold lbStep
  rw [hoc]
  have hcond : ¬ (0 < (st.new_results ++ [(⟨k, c⟩ : ResultRecord)]).length
      ∧ (st.new_results ++ [(⟨k, c⟩ : ResultRecord)]).length % freq = 0) := by
    rintro ⟨-, hm⟩
    exact hmod (by simpa using hm)
  simp only
  rw [if_neg hcond]

theorem lbLoop_none_disk_all_success (freq : Nat) (cf : Nat → Nat)
    (existing : List ResultRecord) (q : List Nat) (st : LBState)
    (h : st.halted = false) (hlen : st.new_results.length + q.length < freq) :
    (lbLoop freq (fun k => Outcome.success (cf k)) existing none st q).disk
      = st.disk := by
  induction q generalizing st with
  | nil => simp [lbLoop]
  | cons k rest ih =>
      have hmod : (st.new_results.length + 1) % freq ≠ 0 := by
        simp only [List.length_cons] at hlen
        rw [Nat.mod_eq_of_lt (by omega)]
        omega
      simp only [lbLoop, h, if_false, reduceCtorEq]
      rw [ih _ ((lbStep_halted _ _ _ _ _).trans h),
        @lbStep_disk_success freq (fun k2 => Outcome.success (cf k2)) existing st k
          (cf k) rfl hmod]
      rw [lbStep_new_results]
      simp only [successOf, Option.toList, List.length_append, List.length_cons,
        List.length_nil, List.length_cons]
      simp only [List.length_cons] at hlen
      omega

theorem intRange_self (a : Int) : intRange a a = [a] := by
  have h : (a + 1 - a) = (1 : Int) := by omega
  rw [intRange, h]
  simp [List.range_succ]

theorem intRange_succ_right {a b : Int} (h : a ≤ b + 1) :
    intRange a (b + 1) = intRange a b ++ [b + 1] := by
  unfold intRange
  have h1 : (b + 1 + 1 - a).toNat = (b + 1 - a).toNat + 1 := by omega
  rw [h1, List.range_succ, List.map_append]
  have h2 : a + ((b + 1 - a).toNat : Int) = b + 1 := by
    rw [Int.toNat_of_nonneg (by omega)]
    omega
  simp only [List.map_cons, List.map_nil, h2]

theorem expandToken_mkToken {a b : Int} (h : a ≤ b) :
    expandToken (mkToken a b) = intRange a b := by
  unfold mkToken
  by_cases hab : a = b
  · subst hab
    simp [expandToken, intRange_self]
  · simp [hab, expandToken]

theorem expandTokens_cons (t : RangeToken) (ts : List RangeToken) :
    expandTokens (t :: ts) = expandToken t ++ expandTokens ts := rfl

theorem expand_formatRangesAux (rest : List Int) :
    ∀ a b : Int, a ≤ b → List.Chain (· < ·) b rest →
      expandTokens (formatRangesAux a b rest) = intRange a b ++ rest := by
  induction rest with
  | nil =>
      intro a b hab _
      simp [formatRangesAux, expandTokens, expandToken_mkToken hab]
  | cons n rest ih =>
      intro a b hab hchain
      rw [List.chain_cons] at hchain
      obtain ⟨hbn, hchain⟩ := hchain
      unfold formatRangesAux
      by_cases hn : n = b + 1
      · subst hn
        rw [if_neg (by simp)]
        rw [ih a (b + 1) (by omega) hchain]
        rw [intRange_succ_right (by omega)]
        simp
      · rw [if_pos hn]
        rw [expandTokens_cons, ih n n le_rfl hchain,
          expandToken_mkToken hab, intRange_self]
        simp

theorem initState_all_results {d : Disk} {rows : List ResultRecord}
    (hm : d.master = some (MasterContent.ok rows)) :
    (initState d).all_results = rows := by
  simp [initState, load_existing_work, hm]

theorem initState_processed {d : Disk} {rows : List ResultRecord}
    (hm : d.master = some (MasterContent.ok rows)) :
    (initState d).processed = processedOf rows := by
  simp [initState, load_existing_work, hm]

theorem sum_map_callsOf_success (cf : Nat → Nat) (l : List Nat) :
    (l.map (callsOf (fun k => Outcome.success (cf k)))).sum = l.length := by
  induction l with
  | nil => rfl
  | cons k rest ih => simp [callsOf, ih, Nat.add_comm]

theorem filterMap_successOf_success (cf : Nat → Nat) (l : List Nat) :
    l.filterMap (successOf (fun k => Outcome.success (cf k)))
      = l.map (fun k => (⟨k, cf k⟩ : ResultRecord)) := by
  induction l with
  | nil => rfl
  | cons k rest ih => simp [successOf, List.filterMap_cons, ih]

/-- C1, counterexample: the Atomic Persister performs no deduplication.
Flushing a buffer that holds two records with the same key 5 writes both
rows to the canonical store verbatim: `save_all_progress` never
deduplicates on key before writing. -/
theorem claim1_counterexample :
    (save_all_progress d0 [⟨5, 0⟩, ⟨5, 1⟩] ∅ [] FailPoint.none).master
        = some (MasterContent.ok [⟨5, 0⟩, ⟨5, 1⟩])
      ∧ ¬ (rowKeys [(⟨5, 0⟩ : ResultRecord), ⟨5, 1⟩]).Nodup := by
  constructor
  · rfl
  · decide

/-- C1, amended: the persisters write the buffer verbatim without
deduplicating, but the executor only enqueues keys that are absent from
the completed set and each key occurs at most once in the missing queue;
hence for every run started on a store with pairwise-distinct keys, the
store after any prefix of the loop — and after the whole pipeline,
whatever the outcomes and interrupts — still has pairwise-distinct keys. -/
theorem claim1_amended (total freq : Nat) (oc : Nat → Outcome) (intAt : Option Nat)
    (d : Disk) (rows : List ResultRecord)
    (hm : d.master = some (MasterContent.ok rows))
    (hnd : (rowKeys rows).Nodup) :
    (∀ p q2, identify_missing_reports total (processedOf rows) = p ++ q2 →
        MasterGood (processLoop freq oc intAt (initState d) p).disk)
      ∧ MasterGood (runPipeline total freq oc intAt d).disk := by
  have hgood : GoodState (initState d) := by
    refine ⟨?_, ?_, ?_⟩
    · rw [initState_all_results hm]
      exact hnd
    · rw [initState_all_results hm, initState_processed hm]
      exact mem_buffer_mem_processedOf
    · intro rows2 h2
      have hd : (initState d).disk = d := rfl
      rw [hd, hm] at h2
      injection h2 with h2
      injection h2 with h2
      exact h2 ▸ hnd
  have hnotin : ∀ k ∈ identify_missing_reports total (processedOf rows),
      k ∉ (initState d).processed := by
    intro k hk
    rw [initState_processed hm]
    exact (identify_missing_mem.mp hk).2
  constructor
  · intro p q2 hsplit
    have hpnd : p.Nodup := by
      have := identify_missing_nodup total (processedOf rows)
      rw [hsplit] at this
      exact (List.nodup_append.mp this).1
    have hpnotin : ∀ k ∈ p, k ∉ (initState d).processed := by
      intro k hk
      exact hnotin k (by rw [hsplit]; exact List.mem_append_left _ hk)
    exact (processLoop_good hgood hpnotin hpnd).2.2
  · unfold runPipeline
    split
    · exact save_all_progress_masterGood _ _ _ hgood.2.2 hgood.1
    · rw [initState_processed hm]
      have hnotin2 : ∀ k ∈ identify_missing_reports total (processedOf rows),
          k ∉ (initState d).processed := hnotin
      exact (@process_missing_reports_good freq oc intAt (initState d)
        (identify_missing_reports total (processedOf rows))
        hgood hnotin2 (identify_missing_nodup total (processedOf rows))).2.2

/-- C2: every flush writes the full accumulated result set to a temp file
and commits it with a single atomic rename; an exception during the write
phase (before the rename) discards the temp artifact and leaves the
canonical store's content exactly as it was before the flush attempt, and
in every case the canonical store ends up either unchanged or holding the
complete new result set — never anything partial.  Stated for both
`save_all_progress` and the recovery script's `save_master_results`. -/
theorem claim2_flush_atomic (d : Disk) (dr : RecDisk) (rs : List ResultRecord)
    (p : Finset Nat) (f : List FailureRecord) (fp : FailPoint) (fr : RFail) :
    ((fp = FailPoint.duringWrite ∨ fp = FailPoint.atRename) →
      (save_all_progress d rs p f fp).master = d.master
        ∧ (rs ≠ [] → (save_all_progress d rs p f fp).masterTemp = none))
      ∧ ((save_all_progress d rs p f fp).master = d.master
          ∨ (save_all_progress d rs p f fp).master
              = some (MasterContent.ok (sortByKey rs)))
      ∧ ((fr = RFail.duringWrite ∨ fr = RFail.atRename) →
        (save_master_results dr rs fr).master = dr.master
          ∧ (rs ≠ [] → (save_master_results dr rs fr).masterTemp = none))
      ∧ ((save_master_results dr rs fr).master = dr.master
          ∨ (save_master_results dr rs fr).master
              = some (MasterContent.ok (sortByKey rs))) := by
  by_cases he : rs.isEmpty
  · have hnil : rs = [] := List.isEmpty_iff.mp he
    refine ⟨?_, ?_, ?_, ?_⟩
    · intro _
      exact ⟨by simp [save_all_progress, he], fun hne => absurd hnil hne⟩
    · left; simp [save_all_progress, he]
    · intro _
      exact ⟨by simp [save_master_results, he], fun hne => absurd hnil hne⟩
    · left; simp [save_master_results, he]
  · refine ⟨?_, ?_, ?_, ?_⟩
    · rintro (hfp | hfp) <;> subst hfp <;>
        exact ⟨by simp [save_all_progress, he], fun _ => by simp [save_all_progress, he]⟩
    · cases fp with
      | none => right; simp [save_all_progress, he]
      | duringWrite => left; simp [save_all_progress, he]
      | atRename => left; simp [save_all_progress, he]
      | duringStateWrite => right; simp [save_all_progress, he]
      | atStateRename => right; simp [save_all_progress, he]
    · rintro (hfr | hfr) <;> subst hfr <;>
        exact ⟨by simp [save_master_results, he], fun _ => by simp [save_master_results, he]⟩
    · cases fr with
      | none => right; simp [save_master_results, he]
      | duringWrite => left; simp [save_master_results, he]
      | atRename => left; simp [save_master_results, he]

/-- Witness for C2 at concrete inputs: a store holding one committed
record survives a flush whose temp-write raises, with the stale temp file
cleaned up, in both persisters; and the all-or-nothing disjunction holds
at the successful flush. -/
theorem claim2_flush_atomic_witness :
    ((save_all_progress d1 [⟨2, 3⟩] ∅ [] FailPoint.duringWrite).master = d1.master
      ∧ (save_all_progress d1 [⟨2, 3⟩] ∅ [] FailPoint.duringWrite).masterTemp = none)
    ∧ ((save_master_results rd1 [⟨2, 3⟩] RFail.duringWrite).master = rd1.master
      ∧ (save_master_results rd1 [⟨2, 3⟩] RFail.duringWrite).masterTemp = none)
    ∧ ((save_all_progress d1 [⟨2, 3⟩] ∅ [] FailPoint.none).master = d1.master
        ∨ (save_all_progress d1 [⟨2, 3⟩] ∅ [] FailPoint.none).master
            = some (MasterContent.ok (sortByKey [⟨2, 3⟩]))) := by
  have h1 := claim2_flush_atomic d1 rd1 [⟨2, 3⟩] ∅ [] FailPoint.duringWrite RFail.duringWrite
  have h2 := claim2_flush_atomic d1 rd1 [⟨2, 3⟩] ∅ [] FailPoint.none RFail.none
  refine ⟨⟨(h1.1 (Or.inl rfl)).1, (h1.1 (Or.inl rfl)).2 (by decide)⟩,
    ⟨(h1.2.2.1 (Or.inl rfl)).1, (h1.2.2.1 (Or.inl rfl)).2 (by decide)⟩, h2.2.1⟩

/-- C4, counterexample: with the master file present but unparseable,
`load_existing_work` catches the parse failure, prints a warning, and
proceeds with the empty completed set — exactly what it returns when the
store is absent.  No `LedgerCorruptError`-style failure is surfaced: a
corrupt store is silently treated as "nothing done yet". -/
theorem claim4_counterexample :
    (load_existing_work corruptDisk).1 = ∅
      ∧ load_existing_work corruptDisk = load_existing_work d0 := by
  constructor
  · rfl
  · rfl

/-- C4, amended: when the durable store exists but is unparseable,
`load_existing_work` catches the error and returns the empty completed-key
set and empty buffer — behaving exactly as if the store were absent; an
absent store (first run) also yields the empty set.  No fatal error is
raised. -/
theorem claim4_amended (d : Disk) (hm : d.master = some MasterContent.corrupt) :
    (load_existing_work d).1 = ∅
      ∧ (load_existing_work d).2.1 = []
      ∧ load_existing_work d = load_existing_work { d with master := none }
      ∧ (load_existing_work d0).1 = ∅ := by
  refine ⟨?_, ?_, ?_, rfl⟩ <;> simp [load_existing_work, hm]

/-- Witness for C4 at the concrete corrupt directory. -/
theorem claim4_amended_witness :
    (load_existing_work corruptDisk).1 = ∅
      ∧ (load_existing_work corruptDisk).2.1 = []
      ∧ load_existing_work corruptDisk
          = load_existing_work { corruptDisk with master := none }
      ∧ (load_existing_work d0).1 = ∅ :=
  claim4_amended corruptDisk rfl

/-- C6: for every catalog of size `total` and completed subset
`S ⊆ {1..total}`, `identify_missing_reports` returns exactly the keys of
`{1..total} \\ S`, strictly ascending, with no duplicates and no
omissions. -/
theorem claim6_gap_resolver (total : Nat) (S : Finset Nat)
    (hS : S ⊆ Finset.Icc 1 total) :
    (∀ k, k ∈ identify_missing_reports total S ↔ (1 ≤ k ∧ k ≤ total ∧ k ∉ S))
      ∧ List.Sorted (· < ·) (identify_missing_reports total S)
      ∧ (identify_missing_reports total S).Nodup := by
  refine ⟨?_, ?_, identify_missing_nodup total S⟩
  · intro k
    rw [identify_missing_mem, Finset.mem_Icc]
    tauto
  · exact List.Sorted.lt_of_le (Finset.sort_sorted _ _) (identify_missing_nodup total S)

/-- Witness for C6: catalog of size 5 with completed set `{2,4}`. -/
theorem claim6_gap_resolver_witness :
    (∀ k, k ∈ identify_missing_reports 5 {2, 4} ↔ (1 ≤ k ∧ k ≤ 5 ∧ k ∉ ({2, 4} : Finset Nat)))
      ∧ List.Sorted (· < ·) (identify_missing_reports 5 {2, 4})
      ∧ (identify_missing_reports 5 {2, 4}).Nodup :=
  claim6_gap_resolver 5 {2, 4} (by decide)

theorem save_all_progress_nil (d : Disk) (p : Finset Nat) (f : List FailureRecord)
    (fp : FailPoint) : save_all_progress d [] p f fp = d := rfl

theorem save_master_results_nil (dr : RecDisk) (fr : RFail) :
    save_master_results dr [] fr = dr := rfl

theorem filterMap_successOf_missingData (nm : String) (l : List Nat) :
    l.filterMap (successOf (fun _ => Outcome.missingData nm)) = [] := by
  induction l with
  | nil => rfl
  | cons k rest ih => simp [successOf, List.filterMap_cons, ih]

theorem processLoop_missingData_disk (freq : Nat) (nm : String) (q : List Nat)
    (st : ProcState) (h : st.halted = false) :
    (processLoop freq (fun _ => Outcome.missingData nm) none st q).disk = st.disk := by
  induction q generalizing st with
  | nil => simp [processLoop]
  | cons k rest ih =>
      simp only [processLoop, h, if_false, reduceCtorEq]
      rw [ih _ ((stepItem_halted _ _ _ _).trans h)]
      rfl

/-- C9: a flush requested with an empty in-memory result buffer returns
immediately and leaves the whole disk — canonical store file and state
file alike — untouched, in both persisters; consequently a run that
accumulates only FailureRecords and no ResultRecords (here: every item
fails with missing data) ends with the disk exactly as it started, so the
FailureRecords are never persisted to the durable store. -/
theorem claim9_empty_flush_noop :
    (∀ (d : Disk) (p : Finset Nat) (f : List FailureRecord) (fp : FailPoint),
        save_all_progress d [] p f fp = d)
      ∧ (∀ (dr : RecDisk) (fr : RFail), save_master_results dr [] fr = dr)
      ∧ (∀ (freq : Nat) (q : List Nat) (d : Disk) (ps : Finset Nat)
            (fl : List FailureRecord) (nm : String),
          (process_missing_reports freq (fun _ => Outcome.missingData nm) none
            ⟨d, [], ps, fl, 0, 0, false⟩ q).disk = d) := by
  refine ⟨save_all_progress_nil, save_master_results_nil, ?_⟩
  intro freq q d ps fl nm
  unfold process_missing_reports
  split
  · rfl
  · have hh := processLoop_none_halted freq (fun _ => Outcome.missingData nm) q
      ⟨d, [], ps, fl, 0, 0, false⟩ rfl
    have hres := processLoop_none_all_results freq (fun _ => Outcome.missingData nm) q
      ⟨d, [], ps, fl, 0, 0, false⟩ rfl
    rw [filterMap_successOf_missingData] at hres
    simp only [List.append_nil, List.nil_append] at hres
    have hdisk := processLoop_missingData_disk freq nm q ⟨d, [], ps, fl, 0, 0, false⟩ rfl
    split
    · rename_i hhal
      rw [hh] at hhal
      cases hhal
    · simp only
      rw [hres, save_all_progress_nil]
      exact hdisk

/-- C10: the range-compression round-trips.  For every non-empty strictly
increasing list of integers, expanding the token list produced by
`_format_ranges` (a standalone number to itself, each span "a-b" to the
inclusive interval) yields exactly the input list; the empty list renders
as the string "None", and a non-empty list renders as the comma-joined
tokens. -/
theorem claim10_format_ranges :
    (∀ l : List Int, l ≠ [] → l.Chain' (· < ·) →
        expandTokens (format_ranges_tokens l) = l)
      ∧ format_ranges [] = "None"
      ∧ ∀ (h : Int) (t : List Int),
          format_ranges (h :: t)
            = String.intercalate ", " ((format_ranges_tokens (h :: t)).map RangeToken.render) := by
  refine ⟨?_, rfl, fun h t => rfl⟩
  intro l hne hch
  cases l with
  | nil => exact absurd rfl hne
  | cons h t =>
      have hch2 : List.Chain (· < ·) h t := hch
      unfold format_ranges_tokens
      rw [expand_formatRangesAux t h h le_rfl hch2, intRange_self]
      simp

/-- Witness for C10 on the strictly increasing list `[3,4,5,9,12,13]`
(which compresses to "3-5, 9, 12-13"). -/
theorem claim10_format_ranges_witness :
    expandTokens (format_ranges_tokens [3, 4, 5, 9, 12, 13]) = [3, 4, 5, 9, 12, 13] :=
  claim10_format_ranges.1 [3, 4, 5, 9, 12, 13] (by simp)
    (by simp [List.chain'_cons])

/-- C3: the bounded-staleness claim fails on the bulletproof processor,
and the code contradicts its own "saves every 5 reports / zero data loss"
documentation.  Failing input: save frequency 5, missing queue 1..9, item
5 fails with missing data, all others succeed.  The `continue` in the
missing-data branch (and in the exception handler) jumps past the
periodic `save_all_progress`, so the checkpoint scheduled at iteration 5
never runs: after nine iterations eight completed items sit only in the
in-memory buffer while the durable store was never written at all — more
than K = 5 items would be lost by a crash at that point. -/
theorem claim3_bounded_loss_bug :
    (processLoop 5 oc3 none st0 [1, 2, 3, 4, 5, 6, 7, 8, 9]).all_results.length = 8
      ∧ (processLoop 5 oc3 none st0 [1, 2, 3, 4, 5, 6, 7, 8, 9]).disk = d0
      ∧ d0.master = none := by
  refine ⟨by decide, by decide, rfl⟩

/-- C8: per-item error isolation in the per-item loop.  Whatever the
outcome function assigns to each item — missing payload data, API
failure/content blocked, or an unexpected exception — the loop runs to
the end of the queue (it never halts early), every failing item
contributes exactly its FailureRecord (key plus error classification) to
the failed list, every succeeding item its ResultRecord to the buffer,
and in particular every failing item's record is present at the end. -/
theorem claim8_error_isolation (freq : Nat) (oc : Nat → Outcome) (st : ProcState)
    (q : List Nat) (h : st.halted = false) :
    (processLoop freq oc none st q).failed = st.failed ++ q.filterMap (failureOf oc)
      ∧ (processLoop freq oc none st q).all_results
          = st.all_results ++ q.filterMap (successOf oc)
      ∧ (processLoop freq oc none st q).halted = false
      ∧ ∀ k ∈ q, ∀ fr, failureOf oc k = some fr →
          fr ∈ (processLoop freq oc none st q).failed := by
  refine ⟨processLoop_none_failed freq oc q st h,
    processLoop_none_all_results freq oc q st h,
    processLoop_none_halted freq oc q st h, ?_⟩
  intro k hk fr hfr
  rw [processLoop_none_failed freq oc q st h]
  exact List.mem_append_right _ (List.mem_filterMap.mpr ⟨k, hk, hfr⟩)

/-- Witness for C8 on the queue `[1,2,3,4]`: the three failures are all
recorded with their classifications and the loop reaches the end. -/
theorem claim8_error_isolation_witness :
    (processLoop 5 oc8 none st0 [1, 2, 3, 4]).failed
        = [] ++ [1, 2, 3, 4].filterMap (failureOf oc8)
      ∧ (processLoop 5 oc8 none st0 [1, 2, 3, 4]).all_results
          = [] ++ [1, 2, 3, 4].filterMap (successOf oc8)
      ∧ (processLoop 5 oc8 none st0 [1, 2, 3, 4]).halted = false
      ∧ (⟨4, "Unexpected error: boom", "Unknown"⟩ : FailureRecord)
          ∈ (processLoop 5 oc8 none st0 [1, 2, 3, 4]).failed := by
  have h := claim8_error_isolation 5 oc8 st0 [1, 2, 3, 4] rfl
  exact ⟨h.1, h.2.1, h.2.2.1, h.2.2.2 4 (by decide) _ rfl⟩

/-- C7: re-running the pipeline when the store already covers the whole
catalog processes nothing.  The Gap Resolver returns the empty list, the
run issues zero external processing calls, and whatever the master file
holds after the run is a permutation of the rows it held before — the
same ResultRecord set per key (the final no-op flush merely rewrites the
store sorted by key). -/
theorem claim7_idempotent_rerun (total freq : Nat) (oc : Nat → Outcome)
    (intAt : Option Nat) (d : Disk) (rows : List ResultRecord)
    (hm : d.master = some (MasterContent.ok rows))
    (hcov : Finset.Icc 1 total ⊆ processedOf rows) :
    identify_missing_reports total (initState d).processed = []
      ∧ (runPipeline total freq oc intAt d).calls = 0
      ∧ ∀ rows2, (runPipeline total freq oc intAt d).disk.master
            = some (MasterContent.ok rows2) → rows2.Perm rows := by
  have hproc := initState_processed hm
  have hmiss : identify_missing_reports total (initState d).processed = [] := by
    rw [hproc]
    unfold identify_missing_reports
    rw [Finset.sdiff_eq_empty_iff_subset.mpr hcov, Finset.sort_empty]
  have hrun : runPipeline total freq oc intAt d
      = { initState d with
            disk := save_all_progress (initState d).disk (initState d).all_results
              (initState d).processed (initState d).failed .none } := by
    unfold runPipeline
    rw [hmiss]
    rfl
  refine ⟨hmiss, ?_, ?_⟩
  · rw [hrun]
    rfl
  · intro rows2 h2
    rw [hrun] at h2
    have hall := initState_all_results hm
    have hdd : (initState d).disk = d := rfl
    rw [hall, hdd] at h2
    cases rows with
    | nil =>
        rw [save_all_progress_nil, hm] at h2
        injection h2 with h2
        injection h2 with h2
        exact h2 ▸ List.Perm.refl []
    | cons r rs2 =>
        have hw : (save_all_progress d (r :: rs2) (initState d).processed
            (initState d).failed .none).master
              = some (MasterContent.ok (sortByKey (r :: rs2))) := by
          simp [save_all_progress]
        rw [hw] at h2
        injection h2 with h2
        injection h2 with h2
        exact h2 ▸ sortByKey_perm (r :: rs2)

/-- Witness for C7: a two-item catalog whose store already holds both
rows; re-running finds no gap, makes no calls, and the store keeps the
same record set. -/
theorem claim7_idempotent_rerun_witness :
    identify_missing_reports 2 (initState d7).processed = []
      ∧ (runPipeline 2 5 (fun _ => Outcome.success 0) none d7).calls = 0
      ∧ ∀ rows2, (runPipeline 2 5 (fun _ => Outcome.success 0) none d7).disk.master
            = some (MasterContent.ok rows2) → rows2.Perm rows7 :=
  claim7_idempotent_rerun 2 5 (fun _ => Outcome.success 0) none d7 rows7 rfl (by decide)

/-- C5, counterexample: the spec scenario run on the large-batch
processor.  Batch 1..10, checkpoint frequency 3, every item succeeds, the
interrupt flag raised after item 5 is observed before item 6.  The
executor then writes the five in-memory results to a write-once emergency
backup and exits: the canonical store holds the 3 records of the last
checkpoint — not the 5 records the claim requires the interrupt path to
flush through the Atomic Persister. -/
theorem claim5_counterexample :
    (process_large_batch 3 ocS [] (some 5) lbst0 [1, 2, 3, 4, 5, 6, 7, 8, 9, 10]).disk.master
        = some (MasterContent.ok [⟨1, 0⟩, ⟨2, 0⟩, ⟨3, 0⟩])
      ∧ (process_large_batch 3 ocS [] (some 5) lbst0
            [1, 2, 3, 4, 5, 6, 7, 8, 9, 10]).new_results.length = 5
      ∧ (process_large_batch 3 ocS [] (some 5) lbst0
            [1, 2, 3, 4, 5, 6, 7, 8, 9, 10]).disk.backups
          = [[⟨1, 0⟩, ⟨2, 0⟩, ⟨3, 0⟩, ⟨4, 0⟩, ⟨5, 0⟩]] := by
  refine ⟨by decide, by decide, by decide⟩

theorem runPipeline_interrupt_success (total freq : Nat) (cf : Nat → Nat) (d : Disk)
    (rows : List ResultRecord) (j : Nat)
    (hm : d.master = some (MasterContent.ok rows))
    (hj : j < (identify_missing_reports total (processedOf rows)).length)
    (hjpos : 0 < j) :
    (runPipeline total freq (fun k => Outcome.success (cf k)) (some j) d).halted = true
      ∧ (runPipeline total freq (fun k => Outcome.success (cf k)) (some j) d).calls = j
      ∧ (runPipeline total freq (fun k => Outcome.success (cf k)) (some j) d).disk.master
          = some (MasterContent.ok (sortByKey (rows ++
              ((identify_missing_reports total (processedOf rows)).take j).map
                (fun k => (⟨k, cf k⟩ : ResultRecord))))) := by
  have hproc := initState_processed hm
  have hid : identify_missing_reports total (initState d).processed
      = identify_missing_reports total (processedOf rows) := by rw [hproc]
  have hjm : j < (identify_missing_reports total (initState d).processed).length := by
    rw [hid]; exact hj
  have hne : (identify_missing_reports total (initState d).processed).isEmpty = false := by
    cases hcase : identify_missing_reports total (initState d).processed with
    | nil => rw [hcase] at hjm; simp at hjm
    | cons a l => rfl
  have h0 : (some j : Option Nat) = some ((initState d).idx + j) := by
    norm_num [show (initState d).idx = 0 from rfl]
  have hloop : processLoop freq (fun k => Outcome.success (cf k)) (some j) (initState d)
      (identify_missing_reports total (initState d).processed)
      = interruptFlush (processLoop freq (fun k => Outcome.success (cf k)) none (initState d)
          ((identify_missing_reports total (processedOf rows)).take j)) := by
    rw [h0, processLoop_interrupt freq _ _ (initState d) j rfl hjm, hid]
  have hrun : runPipeline total freq (fun k => Outcome.success (cf k)) (some j) d
      = interruptFlush (processLoop freq (fun k => Outcome.success (cf k)) none (initState d)
          ((identify_missing_reports total (processedOf rows)).take j)) := by
    unfold runPipeline process_missing_reports
    rw [hne]
    simp only [Bool.false_eq_true, if_false]
    rw [hloop]
    rfl
  have hLcalls : (processLoop freq (fun k => Outcome.success (cf k)) none (initState d)
      ((identify_missing_reports total (processedOf rows)).take j)).calls = j := by
    rw [processLoop_none_calls _ _ _ _ rfl, sum_map_callsOf_success,
      List.length_take, show (initState d).calls = 0 from rfl]
    omega
  have hLres : (processLoop freq (fun k => Outcome.success (cf k)) none (initState d)
      ((identify_missing_reports total (processedOf rows)).take j)).all_results
      = rows ++ ((identify_missing_reports total (processedOf rows)).take j).map
          (fun k => (⟨k, cf k⟩ : ResultRecord)) := by
    rw [processLoop_none_all_results _ _ _ _ rfl, filterMap_successOf_success,
      initState_all_results hm]
  refine ⟨by rw [hrun]; rfl, by rw [hrun]; exact hLcalls, ?_⟩
  rw [hrun]
  show (save_all_progress _ _ _ _ _).master = _
  rw [hLres]
  have hnonempty : (rows ++ ((identify_missing_reports total (processedOf rows)).take j).map
      (fun k => (⟨k, cf k⟩ : ResultRecord))).isEmpty = false := by
    have hlen : ((identify_missing_reports total (processedOf rows)).take j).length = j := by
      rw [List.length_take]; omega
    cases hcase : rows ++ ((identify_missing_reports total (processedOf rows)).take j).map
        (fun k => (⟨k, cf k⟩ : ResultRecord)) with
    | nil =>
        have hc := congrArg List.length hcase
        simp only [List.length_append, List.length_map, hlen, List.length_nil] at hc
        omega
    | cons a l => rfl
  simp only [save_all_progress, hnonempty, Bool.false_eq_true, if_false]

/-- C5, amended: the two executors diverge on interrupts.  The
bulletproof processor's signal handler immediately flushes everything
accumulated so far (the rows loaded from the store plus this run's
results) through `save_all_progress` into the canonical store and exits,
issuing no further processing calls — after an interrupt at item `j` the
store holds the loaded rows plus exactly `j` new records.  The
large-batch processor's handler only sets a flag; at the top of the next
iteration the loop stops issuing calls, writes the accumulated new
results to a write-once emergency backup outside the canonical store and
exits, leaving the canonical store exactly as of its last checkpoint. -/
theorem claim5_amended (total freq : Nat) (cf : Nat → Nat) (d : Disk)
    (rows : List ResultRecord) (j : Nat)
    (hm : d.master = some (MasterContent.ok rows))
    (hj : j < (identify_missing_reports total (processedOf rows)).length)
    (hjpos : 0 < j)
    (freq2 : Nat) (dlb : LBDisk) (ex2 : List ResultRecord) (q2 : List Nat) (j2 : Nat)
    (hj2 : j2 < q2.length) (hf2 : j2 < freq2) :
    ((runPipeline total freq (fun k => Outcome.success (cf k)) (some j) d).halted = true
      ∧ (runPipeline total freq (fun k => Outcome.success (cf k)) (some j) d).calls = j
      ∧ (runPipeline total freq (fun k => Outcome.success (cf k)) (some j) d).disk.master
          = some (MasterContent.ok (sortByKey (rows ++
              ((identify_missing_reports total (processedOf rows)).take j).map
                (fun k => (⟨k, cf k⟩ : ResultRecord))))))
    ∧ ((process_large_batch freq2 (fun k => Outcome.success (cf k)) ex2 (some j2)
            ⟨dlb, [], [], 0, 0, 0, false⟩ q2).disk.master = dlb.master
      ∧ (process_large_batch freq2 (fun k => Outcome.success (cf k)) ex2 (some j2)
            ⟨dlb, [], [], 0, 0, 0, false⟩ q2).disk.backups
          = dlb.backups ++ [(q2.take j2).map (fun k => (⟨k, cf k⟩ : ResultRecord))]
      ∧ (process_large_batch freq2 (fun k => Outcome.success (cf k)) ex2 (some j2)
            ⟨dlb, [], [], 0, 0, 0, false⟩ q2).calls = j2) := by
  refine ⟨runPipeline_interrupt_success total freq cf d rows j hm hj hjpos, ?_⟩
  have h0 : (some j2 : Option Nat)
      = some ((⟨dlb, [], [], 0, 0, 0, false⟩ : LBState).idx + j2) := by
    norm_num
  have hloop : lbLoop freq2 (fun k => Outcome.success (cf k)) ex2 (some j2)
      ⟨dlb, [], [], 0, 0, 0, false⟩ q2
      = (let st2 := lbLoop freq2 (fun k => Outcome.success (cf k)) ex2 none
           ⟨dlb, [], [], 0, 0, 0, false⟩ (q2.take j2)
         { st2 with disk := emergency_save st2.disk st2.new_results, halted := true }) := by
    rw [h0]
    exact lbLoop_interrupt freq2 _ ex2 q2 _ j2 rfl hj2
  have hlen : (q2.take j2).length = j2 := by
    rw [List.length_take]; omega
  have hLdisk : (lbLoop freq2 (fun k => Outcome.success (cf k)) ex2 none
      ⟨dlb, [], [], 0, 0, 0, false⟩ (q2.take j2)).disk = dlb := by
    rw [lbLoop_none_disk_all_success freq2 cf ex2 (q2.take j2) _ rfl]
    simp [hlen]
    omega
  have hLnew : (lbLoop freq2 (fun k => Outcome.success (cf k)) ex2 none
      ⟨dlb, [], [], 0, 0, 0, false⟩ (q2.take j2)).new_results
      = (q2.take j2).map (fun k => (⟨k, cf k⟩ : ResultRecord)) := by
    rw [lbLoop_none_new_results _ _ _ _ _ rfl, filterMap_successOf_success]
    rfl
  have hLcalls : (lbLoop freq2 (fun k => Outcome.success (cf k)) ex2 none
      ⟨dlb, [], [], 0, 0, 0, false⟩ (q2.take j2)).calls = j2 := by
    rw [lbLoop_none_calls _ _ _ _ _ rfl, sum_map_callsOf_success, hlen]
    simp
  have hrun : process_large_batch freq2 (fun k => Outcome.success (cf k)) ex2 (some j2)
      ⟨dlb, [], [], 0, 0, 0, false⟩ q2
      = (let st2 := lbLoop freq2 (fun k => Outcome.success (cf k)) ex2 none
           ⟨dlb, [], [], 0, 0, 0, false⟩ (q2.take j2)
         { st2 with disk := emergency_save st2.disk st2.new_results, halted := true }) := by
    unfold process_large_batch
    rw [hloop]
    rfl
  refine ⟨?_, ?_, ?_⟩
  · rw [hrun]
    show (emergency_save _ _).master = dlb.master
    rw [hLdisk]
    rfl
  · rw [hrun]
    show (emergency_save _ _).backups = _
    unfold emergency_save
    rw [hLdisk, hLnew]
  · rw [hrun]
    show (lbLoop freq2 (fun k => Outcome.success (cf k)) ex2 none
      ⟨dlb, [], [], 0, 0, 0, false⟩ (q2.take j2)).calls = j2
    exact hLcalls

/-- Witness for C5 at concrete inputs: the spec's interrupt-after-item-5
scenario on the bulletproof processor (10-item catalog, empty store,
checkpoint frequency 3) yields a store of exactly the 5 processed
records, while the large-batch run (frequency 10, interrupt before item
6) leaves its store untouched and backs the 5 records up instead. -/
theorem claim5_amended_witness :
    ((runPipeline 10 3 (fun k => Outcome.success 0) (some 5) dEmptyStore).halted = true
      ∧ (runPipeline 10 3 (fun k => Outcome.success 0) (some 5) dEmptyStore).calls = 5
      ∧ (runPipeline 10 3 (fun k => Outcome.success 0) (some 5) dEmptyStore).disk.master
          = some (MasterContent.ok (sortByKey ([] ++
              ((identify_missing_reports 10 (processedOf [])).take 5).map
                (fun k => (⟨k, 0⟩ : ResultRecord))))))
    ∧ ((process_large_batch 10 (fun k => Outcome.success 0) [] (some 5)
            ⟨lbd0, [], [], 0, 0, 0, false⟩ [1, 2, 3, 4, 5, 6, 7, 8, 9, 10]).disk.master
          = lbd0.master
      ∧ (process_large_batch 10 (fun k => Outcome.success 0) [] (some 5)
            ⟨lbd0, [], [], 0, 0, 0, false⟩ [1, 2, 3, 4, 5, 6, 7, 8, 9, 10]).disk.backups
          = lbd0.backups ++ [([1, 2, 3, 4, 5, 6, 7, 8, 9, 10].take 5).map
              (fun k => (⟨k, 0⟩ : ResultRecord))]
      ∧ (process_large_batch 10 (fun k => Outcome.success 0) [] (some 5)
            ⟨lbd0, [], [], 0, 0, 0, false⟩ [1, 2, 3, 4, 5, 6, 7, 8, 9, 10]).calls = 5) := by
  have hlen10 : (identify_missing_reports 10 (processedOf [])).length = 10 := by
    unfold identify_missing_reports
    rw [Finset.length_sort]
    have hp : processedOf [] = ∅ := rfl
    rw [hp, Finset.sdiff_empty, Nat.card_Icc]
  exact claim5_amended 10 3 (fun _ => 0) dEmptyStore [] 5 rfl
    (by rw [hlen10]; decide) (by decide)
    10 lbd0 [] [1, 2, 3, 4, 5, 6, 7, 8, 9, 10] 5 (by decide) (by decide)

/-- Witness for C1 (amended) on a three-item catalog whose store already
holds distinct keys 1 and 2: every prefix-state of the loop and the final
pipeline state keep the store duplicate-free. -/
theorem claim1_amended_witness :
    (∀ p q2, identify_missing_reports 3 (processedOf rows7) = p ++ q2 →
        MasterGood (processLoop 5 ocS none (initState d7) p).disk)
      ∧ MasterGood (runPipeline 3 5 ocS none d7).disk :=
  claim1_amended 3 5 ocS none d7 rows7 rfl (by decide)
